import Mathlib

/-
Verification of the density-function combinator core of PumpkinDev
(pumpkin-world/src/world_gen/noise/density/math.rs) and of the basic
configuration validation (pumpkin-config/src/lib.rs).

Floating-point values (f64) are modelled by the rationals: every operation
used by this code (addition, multiplication, min, max, order comparisons)
is exact, and the properties under scrutiny are about which operations are
performed and in which branch, not about rounding.
-/

namespace Pumpkin

/-- Modelled from the spec: the positional abstraction (a block coordinate
used for point sampling).  The concrete NoisePos type lives in the density
module root, which is not part of the excerpt; the spec only requires a
coordinate value (block x, y, z). -/
structure NoisePos where
  x : Int
  y : Int
  z : Int

/-- Modelled from the spec: the batched iteration context ("Applier") maps
an integer index in [0, n) to a coordinate; the spec requires the mapping
to be a pure function of the index. -/
structure Applier where
  atIndex : Nat → NoisePos

/-- The action tag of a linear combinator (enum LinearType in math.rs). -/
inductive LinearType where
  | Mul
  | Add
deriving DecidableEq

/-- The action tag of a binary combinator (enum BinaryType in math.rs). -/
inductive BinaryType where
  | Mul
  | Add
  | Min
  | Max
deriving DecidableEq

/-- The density-function node kinds relevant to this excerpt.  Linear and
Binary are the structs of math.rs (with their cached min/max bound fields);
Constant and Leaf are modelled from the spec (constant values and
noise-backed leaf samplers with declared bounds), since the enum they live
in is outside the excerpt. -/
inductive DensityFunction where
  | Constant (value : ℚ)
  | Leaf (sampleFn : NoisePos → ℚ) (minValue : ℚ) (maxValue : ℚ)
  | Linear (action : LinearType) (input : DensityFunction)
      (minValue : ℚ) (maxValue : ℚ) (arg : ℚ)
  | Binary (action : BinaryType) (arg1 : DensityFunction)
      (arg2 : DensityFunction) (minValue : ℚ) (maxValue : ℚ)

/-- Modelled from the spec: the graph rewriter ("Visitor") is a pure
transform from nodes to nodes. -/
structure Visitor where
  apply : DensityFunction → DensityFunction

/-- The cached static lower bound of a node (the min() accessor).  The
Linear and Binary cases read the struct field, as in math.rs; the Constant
and Leaf cases are modelled from the spec (a constant has min = max =
value; a leaf reports its declared bound). -/
def minD : DensityFunction → ℚ
  | .Constant v => v
  | .Leaf _ mn _ => mn
  | .Linear _ _ mn _ _ => mn
  | .Binary _ _ _ mn _ => mn

/-- The cached static upper bound of a node (the max() accessor); see
minD. -/
def maxD : DensityFunction → ℚ
  | .Constant v => v
  | .Leaf _ _ mx => mx
  | .Linear _ _ _ mx _ => mx
  | .Binary _ _ _ _ mx => mx

/-- UnaryDensityFunction::apply_density for LinearFunction (math.rs lines
71-78): multiply by or add the fixed argument. -/
def applyDensity (action : LinearType) (arg : ℚ) (density : ℚ) : ℚ :=
  match action with
  | .Mul => density * arg
  | .Add => density + arg

/-- Point sampling.  The Linear case is LinearFunction::sample and the
Binary case is BinaryFunction::sample (math.rs lines 51-53 and 189-211,
including the short-circuits against the static bounds of the second
child).  Constant and Leaf are modelled from the spec (a constant yields
its value everywhere; a leaf applies its sampler). -/
def sampleD : DensityFunction → NoisePos → ℚ
  | .Constant v, _ => v
  | .Leaf f _ _, pos => f pos
  | .Linear action input _ _ arg, pos => applyDensity action arg (sampleD input pos)
  | .Binary action a1 a2 _ _, pos =>
      let d := sampleD a1 pos
      let e := sampleD a2 pos
      match action with
      | .Add => d + e
      | .Mul => d * e
      | .Min => if d < minD a2 then d else min d e
      | .Max => if maxD a2 < d then d else max d e

/-- The `densities.iter_mut().enumerate().for_each(...)` loop shape used by
BinaryFunction::fill: rewrite each element as a function of its index and
current value. -/
def mapWithIndex (f : Nat → ℚ → ℚ) : Nat → List ℚ → List ℚ
  | _, [] => []
  | i, v :: rest => f i v :: mapWithIndex f (i + 1) rest

/-- Batched filling over a positional context, as a function from the
context and the length to the produced array.  The Linear case is
LinearFunction::fill (fill the child, then transform in place) and the
Binary case is BinaryFunction::fill (math.rs lines 213-251): fill the
first child, then add a scratch fill of the second child, or rewrite
elementwise with the skip conditions of the Mul/Min/Max loops.  Constant
and Leaf are modelled from the spec (a constant fills every slot with its
value; a leaf samples each index's position). -/
def fillD : DensityFunction → Applier → Nat → List ℚ
  | .Constant v, _, n => List.replicate n v
  | .Leaf f _ _, ap, n => (List.range n).map (fun i => f (ap.atIndex i))
  | .Linear action input _ _ arg, ap, n =>
      (fillD input ap n).map (applyDensity action arg)
  | .Binary action a1 a2 _ _, ap, n =>
      let densities := fillD a1 ap n
      match action with
      | .Add => List.zipWith (fun a b => a + b) densities (fillD a2 ap n)
      | .Mul =>
          mapWithIndex
            (fun i v => if v ≠ 0 then v * sampleD a2 (ap.atIndex i) else v) 0 densities
      | .Min =>
          let e := minD a2
          mapWithIndex
            (fun i v => if e ≤ v then min v (sampleD a2 (ap.atIndex i)) else v) 0 densities
      | .Max =>
          let e := maxD a2
          mapWithIndex
            (fun i v => if v ≤ e then max v (sampleD a2 (ap.atIndex i)) else v) 0 densities

/-- The `if let DensityFunction::Constant(func)` tests of
BinaryFunction::create. -/
def asConstant : DensityFunction → Option ℚ
  | .Constant v => some v
  | _ => none

/-- The lower-bound formula `h` of BinaryFunction::create (math.rs lines
117-130), with d, e the children's minima and f, g their maxima. -/
def binaryMinBound (action : BinaryType) (d e f g : ℚ) : ℚ :=
  match action with
  | .Add => d + e
  | .Mul =>
      if 0 < d ∧ 0 < e then d * e
      else if f < 0 ∧ g < 0 then f * g
      else min (d * g) (f * e)
  | .Min => min d e
  | .Max => max d e

/-- The upper-bound formula `i` of BinaryFunction::create (math.rs lines
132-145). -/
def binaryMaxBound (action : BinaryType) (d e f g : ℚ) : ℚ :=
  match action with
  | .Add => f + g
  | .Mul =>
      if 0 < d ∧ 0 < e then f * g
      else if f < 0 ∧ g < 0 then d * e
      else max (d * e) (f * g)
  | .Min => min f g
  | .Max => max f g

/-- The non-fatal overlap diagnostic of BinaryFunction::create (math.rs
lines 108-115): for Min and Max, warn when `d >= e || e >= f` where d, f
are the first child's bounds and e is the second child's minimum.  The
warning only logs; it is a predicate separate from the constructed node. -/
def binaryWarns (action : BinaryType) (arg1 arg2 : DensityFunction) : Bool :=
  match action with
  | .Min | .Max => decide (minD arg2 ≤ minD arg1 ∨ maxD arg1 ≤ minD arg2)
  | _ => false

/-- BinaryFunction::create (math.rs lines 98-185): compute the combined
bounds, then for Add and Mul fold a constant first child, else a constant
second child, into a linear combinator carrying the combined bounds;
otherwise build a binary node. -/
def create (action : BinaryType) (arg1 arg2 : DensityFunction) : DensityFunction :=
  let d := minD arg1
  let e := minD arg2
  let f := maxD arg1
  let g := maxD arg2
  let h := binaryMinBound action d e f g
  let i := binaryMaxBound action d e f g
  match action with
  | .Mul | .Add =>
      let laction : LinearType :=
        match action with
        | .Add => LinearType.Add
        | _ => LinearType.Mul
      match asConstant arg1 with
      | some v => .Linear laction arg2 h i v
      | none =>
          match asConstant arg2 with
          | some v => .Linear laction arg1 h i v
          | none => .Binary action arg1 arg2 h i
  | _ => .Binary action arg1 arg2 h i

/-- The linear-combinator reconstruction used by LinearFunction::apply
(math.rs lines 26-49): rebuild a linear node over the given input with
bounds recomputed from the input's bounds by the sign rule on the fixed
argument. -/
def linearOf (action : LinearType) (input : DensityFunction) (arg : ℚ) : DensityFunction :=
  let d := minD input
  let e := maxD input
  let fg : ℚ × ℚ :=
    match action with
    | .Add => (d + arg, e + arg)
    | .Mul => if 0 ≤ arg then (d * arg, e * arg) else (e * arg, d * arg)
  .Linear action input fg.1 fg.2 arg

/-- Graph rewriting.  The Linear case is LinearFunction::apply (rewrite
the child, rebuild with recomputed bounds, and return directly) and the
Binary case is BinaryFunction::apply (rewrite both children, reconstruct
through the factory, then hand the result to the visitor).  Constant and
Leaf are modelled from the spec: a leaf node is offered to the visitor
as-is. -/
def applyD : DensityFunction → Visitor → DensityFunction
  | .Constant v, vis => vis.apply (.Constant v)
  | .Leaf f mn mx, vis => vis.apply (.Leaf f mn mx)
  | .Linear action input _ _ arg, vis => linearOf action (applyD input vis) arg
  | .Binary action a1 a2 _ _, vis =>
      vis.apply (create action (applyD a1 vis) (applyD a2 vis))

/-- The TOML-backed basic server configuration (pumpkin-config/src/lib.rs,
struct BasicConfiguration).  Only fields of directly representable types
are carried; the socket address, difficulty, game mode and tick-rate
fields do not participate in validation. -/
structure BasicConfiguration where
  seed : String
  max_players : Nat
  view_distance : Nat
  simulation_distance : Nat
  allow_nether : Bool
  hardcore : Bool
  online_mode : Bool
  encryption : Bool
  motd : String
  scrub_ips : Bool
  use_favicon : Bool
  favicon_path : String

/-- BasicConfiguration::validate (lib.rs lines 172-184): a failed assert
aborts the process, modelled as an error carrying the assert message. -/
def validate (c : BasicConfiguration) : Except String Unit :=
  if ¬ 2 ≤ c.view_distance then .error "View distance must be at least 2"
  else if ¬ c.view_distance ≤ 32 then .error "View distance must be less than 32"
  else if c.online_mode = true ∧ ¬ c.encryption = true then
    .error "When Online Mode is enabled, Encryption must be enabled"
  else .ok ()

/-- Whether validation succeeds (the process keeps running). -/
def validateOk (c : BasicConfiguration) : Bool :=
  match validate c with
  | .ok _ => true
  | .error _ => false

/-- The tail of LoadConfiguration::load (lib.rs lines 148-149): after the
configuration value is obtained it is validated and then returned
unchanged; an assertion failure stops the process (none). -/
def loadValidated (c : BasicConfiguration) : Option BasicConfiguration :=
  match validate c with
  | .ok _ => some c
  | .error _ => none

/-- Whether a graph uses only constant, linear, and binary nodes. -/
def builtFromCLB : DensityFunction → Bool
  | .Constant _ => true
  | .Leaf _ _ _ => false
  | .Linear _ input _ _ _ => builtFromCLB input
  | .Binary _ a1 a2 _ _ => builtFromCLB a1 && builtFromCLB a2

/-- Whether a node is structurally a binary combinator. -/
def isBinaryNode : DensityFunction → Bool
  | .Binary _ _ _ _ _ => true
  | _ => false

/-- Point sampling stays inside the node's cached bounds at every
position. -/
def inBounds (df : DensityFunction) : Prop :=
  ∀ pos : NoisePos, minD df ≤ sampleD df pos ∧ sampleD df pos ≤ maxD df

/-- The four observable operations of the node contract agree. -/
def obsEqual (a b : DensityFunction) : Prop :=
  sampleD a = sampleD b ∧ fillD a = fillD b ∧ minD a = minD b ∧ maxD a = maxD b

section ListLemmas

lemma mapWithIndex_getElem? (f : Nat → ℚ → ℚ) :
    ∀ (l : List ℚ) (k i : Nat),
      (mapWithIndex f k l)[i]? = (l[i]?).map (f (k + i)) := by
  intro l
  induction l with
  | nil => intro k i; simp [mapWithIndex]
  | cons a t ih =>
      intro k i
      cases i with
      | zero => simp [mapWithIndex]
      | succ j =>
          have hk : k + 1 + j = k + (j + 1) := by omega
          simp [mapWithIndex, ih (k + 1) j, hk]

lemma mapWithIndex_zero_getElem? (f : Nat → ℚ → ℚ) (l : List ℚ) (i : Nat) :
    (mapWithIndex f 0 l)[i]? = (l[i]?).map (f i) := by
  simpa using mapWithIndex_getElem? f l 0 i

lemma mapWithIndex_length (f : Nat → ℚ → ℚ) :
    ∀ (l : List ℚ) (k : Nat), (mapWithIndex f k l).length = l.length := by
  intro l
  induction l with
  | nil => intro k; simp [mapWithIndex]
  | cons a t ih => intro k; simp [mapWithIndex, ih]

lemma zipWith_getElem? (g : ℚ → ℚ → ℚ) :
    ∀ (l1 l2 : List ℚ) (i : Nat),
      (List.zipWith g l1 l2)[i]? =
        (l1[i]?).bind (fun a => (l2[i]?).map (g a)) := by
  intro l1
  induction l1 with
  | nil => intro l2 i; simp
  | cons a t ih =>
      intro l2 i
      cases l2 with
      | nil => simp
      | cons b u =>
          cases i with
          | zero => simp
          | succ j => simpa using ih u j

lemma replicate_getElem? (v : ℚ) :
    ∀ (n i : Nat), i < n → (List.replicate n v)[i]? = some v := by
  intro n
  induction n with
  | zero => intro i h; omega
  | succ m ih =>
      intro i h
      cases i with
      | zero => simp [List.replicate]
      | succ j =>
          have : j < m := by omega
          simpa [List.replicate] using ih j this

end ListLemmas

/-- Every fill produces an array of exactly the requested length. -/
lemma fillD_length (df : DensityFunction) :
    ∀ (ap : Applier) (n : Nat), (fillD df ap n).length = n := by
  induction df with
  | Constant v => intro ap n; simp [fillD]
  | Leaf f mn mx => intro ap n; simp [fillD]
  | Linear action input mn mx arg ih => intro ap n; simp [fillD, ih]
  | Binary action a1 a2 mn mx ih1 ih2 =>
      intro ap n
      cases action <;> simp [fillD, mapWithIndex_length, ih1, ih2]

/-- Filling agrees with pointwise sampling at every index, for every node
kind. -/
lemma fillD_getElem?_eq_sample (df : DensityFunction) :
    ∀ (ap : Applier) (n i : Nat), i < n →
      (fillD df ap n)[i]? = some (sampleD df (ap.atIndex i)) := by
  induction df with
  | Constant v =>
      intro ap n i hi
      simp [fillD, sampleD, replicate_getElem? v n i hi]
  | Leaf f mn mx =>
      intro ap n i hi
      simp [fillD, sampleD, List.getElem?_map, List.getElem?_range hi]
  | Linear action input mn mx arg ih =>
      intro ap n i hi
      simp [fillD, sampleD, List.getElem?_map, ih ap n i hi]
  | Binary action a1 a2 mn mx ih1 ih2 =>
      intro ap n i hi
      cases action with
      | Add =>
          simp [fillD, sampleD, zipWith_getElem? _ _ _ i, ih1 ap n i hi, ih2 ap n i hi]
      | Mul =>
          simp only [fillD, sampleD, mapWithIndex_zero_getElem?, ih1 ap n i hi,
            Option.map_some']
          by_cases hz : sampleD a1 (ap.atIndex i) = 0
          · simp [hz]
          · simp [hz]
      | Min =>
          simp only [fillD, sampleD, mapWithIndex_zero_getElem?, ih1 ap n i hi,
            Option.map_some']
          by_cases hlt : sampleD a1 (ap.atIndex i) < minD a2
          · simp [hlt, not_le.mpr hlt]
          · simp [hlt, not_lt.mp hlt]
      | Max =>
          simp only [fillD, sampleD, mapWithIndex_zero_getElem?, ih1 ap n i hi,
            Option.map_some']
          by_cases hlt : maxD a2 < sampleD a1 (ap.atIndex i)
          · simp [hlt, not_le.mpr hlt]
          · simp [hlt, not_lt.mp hlt]

/-- Whatever shape the factory returns (folded linear node or binary
node), its cached lower bound is the combined bound formula `h`. -/
lemma minD_create (action : BinaryType) (a1 a2 : DensityFunction) :
    minD (create action a1 a2) =
      binaryMinBound action (minD a1) (minD a2) (maxD a1) (maxD a2) := by
  cases action <;> cases a1 <;> cases a2 <;> rfl

/-- Whatever shape the factory returns, its cached upper bound is the
combined bound formula `i`. -/
lemma maxD_create (action : BinaryType) (a1 a2 : DensityFunction) :
    maxD (create action a1 a2) =
      binaryMaxBound action (minD a1) (minD a2) (maxD a1) (maxD a2) := by
  cases action <;> cases a1 <;> cases a2 <;> rfl

lemma create_min_eq (a1 a2 : DensityFunction) :
    create .Min a1 a2 =
      .Binary .Min a1 a2 (min (minD a1) (minD a2)) (min (maxD a1) (maxD a2)) := rfl

lemma create_max_eq (a1 a2 : DensityFunction) :
    create .Max a1 a2 =
      .Binary .Max a1 a2 (max (minD a1) (minD a2)) (max (maxD a1) (maxD a2)) := rfl

lemma asConstant_eq_some {X : DensityFunction} {v : ℚ} :
    asConstant X = some v → X = .Constant v := by
  cases X <;> simp [asConstant]

/-- Point sampling of a factory-built add node is the sum of the children's
samples, whether or not a constant child was folded away. -/
lemma sampleD_create_add (a1 a2 : DensityFunction) (pos : NoisePos) :
    sampleD (create .Add a1 a2) pos = sampleD a1 pos + sampleD a2 pos := by
  cases a1 <;> cases a2 <;>
    simp [create, sampleD, applyDensity, asConstant, add_comm]

/-- Point sampling of a factory-built multiply node is the product of the
children's samples, whether or not a constant child was folded away. -/
lemma sampleD_create_mul (a1 a2 : DensityFunction) (pos : NoisePos) :
    sampleD (create .Mul a1 a2) pos = sampleD a1 pos * sampleD a2 pos := by
  cases a1 <;> cases a2 <;>
    simp [create, sampleD, applyDensity, asConstant, mul_comm]

section BoundArithmetic

/-- With the second child a constant c, the factory's multiply lower bound
coincides with the linear sign rule. -/
lemma mulBound_const_right_min (c mX MX : ℚ) (hwf : mX ≤ MX) :
    binaryMinBound .Mul mX c MX c = if 0 ≤ c then mX * c else MX * c := by
  simp only [binaryMinBound]
  rcases le_or_lt 0 c with hc | hc
  · rw [if_pos hc]
    by_cases hm : 0 < mX ∧ 0 < c
    · rw [if_pos hm]
    · rw [if_neg hm, if_neg (by rintro ⟨h1, h2⟩; exact absurd hc (not_le.mpr h2))]
      exact min_eq_left (mul_le_mul_of_nonneg_right hwf hc)
  · rw [if_neg (not_le.mpr hc), if_neg (by rintro ⟨h1, h2⟩; exact absurd h2 (not_lt.mpr hc.le))]
    by_cases hM : MX < 0
    · rw [if_pos ⟨hM, hc⟩]
    · rw [if_neg (by rintro ⟨h1, h2⟩; exact hM h1)]
      exact min_eq_right (mul_le_mul_of_nonpos_right hwf hc.le)

/-- With the second child a constant c, the factory's multiply upper bound
coincides with the linear sign rule. -/
lemma mulBound_const_right_max (c mX MX : ℚ) (hwf : mX ≤ MX) :
    binaryMaxBound .Mul mX c MX c = if 0 ≤ c then MX * c else mX * c := by
  simp only [binaryMaxBound]
  rcases le_or_lt 0 c with hc | hc
  · rw [if_pos hc]
    by_cases hm : 0 < mX ∧ 0 < c
    · rw [if_pos hm]
    · rw [if_neg hm, if_neg (by rintro ⟨h1, h2⟩; exact absurd hc (not_le.mpr h2))]
      exact max_eq_right (mul_le_mul_of_nonneg_right hwf hc)
  · rw [if_neg (not_le.mpr hc), if_neg (by rintro ⟨h1, h2⟩; exact absurd h2 (not_lt.mpr hc.le))]
    by_cases hM : MX < 0
    · rw [if_pos ⟨hM, hc⟩]
    · rw [if_neg (by rintro ⟨h1, h2⟩; exact hM h1)]
      exact max_eq_left (mul_le_mul_of_nonpos_right hwf hc.le)

/-- With the first child a constant c, the factory's multiply lower bound
coincides with the linear sign rule applied to the other child. -/
lemma mulBound_const_left_min (c mX MX : ℚ) (hwf : mX ≤ MX) :
    binaryMinBound .Mul c mX c MX = if 0 ≤ c then mX * c else MX * c := by
  simp only [binaryMinBound]
  rcases le_or_lt 0 c with hc | hc
  · rw [if_pos hc]
    by_cases hm : 0 < c ∧ 0 < mX
    · rw [if_pos hm, mul_comm]
    · rw [if_neg hm, if_neg (by rintro ⟨h1, h2⟩; exact absurd hc (not_le.mpr h1))]
      rw [min_eq_right (mul_le_mul_of_nonneg_left hwf hc), mul_comm]
  · rw [if_neg (not_le.mpr hc), if_neg (by rintro ⟨h1, h2⟩; exact absurd h1 (not_lt.mpr hc.le))]
    by_cases hM : MX < 0
    · rw [if_pos ⟨hc, hM⟩, mul_comm]
    · rw [if_neg (by rintro ⟨h1, h2⟩; exact hM h2)]
      rw [min_eq_left (mul_le_mul_of_nonpos_left hwf hc.le), mul_comm]

/-- With the first child a constant c, the factory's multiply upper bound
coincides with the linear sign rule applied to the other child. -/
lemma mulBound_const_left_max (c mX MX : ℚ) (hwf : mX ≤ MX) :
    binaryMaxBound .Mul c mX c MX = if 0 ≤ c then MX * c else mX * c := by
  simp only [binaryMaxBound]
  rcases le_or_lt 0 c with hc | hc
  · rw [if_pos hc]
    by_cases hm : 0 < c ∧ 0 < mX
    · rw [if_pos hm, mul_comm]
    · rw [if_neg hm, if_neg (by rintro ⟨h1, h2⟩; exact absurd hc (not_le.mpr h1))]
      rw [max_eq_right (mul_le_mul_of_nonneg_left hwf hc), mul_comm]
  · rw [if_neg (not_le.mpr hc), if_neg (by rintro ⟨h1, h2⟩; exact absurd h1 (not_lt.mpr hc.le))]
    by_cases hM : MX < 0
    · rw [if_pos ⟨hc, hM⟩, mul_comm]
    · rw [if_neg (by rintro ⟨h1, h2⟩; exact hM h2)]
      rw [max_eq_left (mul_le_mul_of_nonpos_left hwf hc.le), mul_comm]

/-- The factory's combined lower bound never exceeds its combined upper
bound, for well-formed child intervals. -/
lemma binaryBound_le (action : BinaryType) (d e f g : ℚ)
    (hdf : d ≤ f) (heg : e ≤ g) :
    binaryMinBound action d e f g ≤ binaryMaxBound action d e f g := by
  cases action with
  | Add => simpa [binaryMinBound, binaryMaxBound] using add_le_add hdf heg
  | Min => exact min_le_min hdf heg
  | Max => exact max_le_max hdf heg
  | Mul =>
      simp only [binaryMinBound, binaryMaxBound]
      by_cases h1 : 0 < d ∧ 0 < e
      · rw [if_pos h1, if_pos h1]
        nlinarith [h1.1, h1.2]
      · rw [if_neg h1, if_neg h1]
        by_cases h2 : f < 0 ∧ g < 0
        · rw [if_pos h2, if_pos h2]
          nlinarith [h2.1, h2.2]
        · rw [if_neg h2, if_neg h2]
          rcases not_and_or.mp h1 with hd | he
          · have hd0 : d ≤ 0 := not_lt.mp hd
            calc min (d * g) (f * e) ≤ d * g := min_le_left _ _
              _ ≤ d * e := mul_le_mul_of_nonpos_left heg hd0
              _ ≤ max (d * e) (f * g) := le_max_left _ _
          · have he0 : e ≤ 0 := not_lt.mp he
            calc min (d * g) (f * e) ≤ f * e := min_le_right _ _
              _ ≤ d * e := mul_le_mul_of_nonpos_right hdf he0
              _ ≤ max (d * e) (f * g) := le_max_left _ _

/-- The factory's multiply lower bound is below every achievable product of
in-range child values. -/
lemma mulBound_lower (d e f g s1 s2 : ℚ)
    (h1 : d ≤ s1) (h2 : s1 ≤ f) (h3 : e ≤ s2) (h4 : s2 ≤ g) :
    binaryMinBound .Mul d e f g ≤ s1 * s2 := by
  simp only [binaryMinBound]
  by_cases hb1 : 0 < d ∧ 0 < e
  · rw [if_pos hb1]
    nlinarith [hb1.1, hb1.2]
  · rw [if_neg hb1]
    by_cases hb2 : f < 0 ∧ g < 0
    · rw [if_pos hb2]
      calc f * g ≤ f * s2 := mul_le_mul_of_nonpos_left h4 (by linarith [hb2.1])
        _ ≤ s1 * s2 := mul_le_mul_of_nonpos_right h2 (by linarith [hb2.2])
    · rw [if_neg hb2]
      rcases le_or_lt 0 s2 with hs2 | hs2
      · by_cases hd : d ≤ 0
        · calc min (d * g) (f * e) ≤ d * g := min_le_left _ _
            _ ≤ d * s2 := mul_le_mul_of_nonpos_left h4 hd
            _ ≤ s1 * s2 := mul_le_mul_of_nonneg_right h1 hs2
        · have he : e ≤ 0 := by
            rcases not_and_or.mp hb1 with h | h
            · exact absurd (not_lt.mp h) hd
            · exact not_lt.mp h
          calc min (d * g) (f * e) ≤ f * e := min_le_right _ _
            _ ≤ 0 := mul_nonpos_iff.mpr (Or.inl ⟨by linarith [not_le.mp hd], he⟩)
            _ ≤ s1 * s2 := mul_nonneg (by linarith [not_le.mp hd]) hs2
      · by_cases hf : 0 ≤ f
        · calc min (d * g) (f * e) ≤ f * e := min_le_right _ _
            _ ≤ f * s2 := mul_le_mul_of_nonneg_left h3 hf
            _ ≤ s1 * s2 := mul_le_mul_of_nonpos_right h2 hs2.le
        · have hg : 0 ≤ g := by
            rcases not_and_or.mp hb2 with h | h
            · exact absurd (not_le.mp hf) h
            · exact not_lt.mp h
          calc min (d * g) (f * e) ≤ d * g := min_le_left _ _
            _ ≤ 0 := mul_nonpos_iff.mpr (Or.inr ⟨by linarith [not_le.mp hf], hg⟩)
            _ ≤ s1 * s2 :=
                le_of_lt (mul_pos_of_neg_of_neg (by linarith [not_le.mp hf]) hs2)

end BoundArithmetic

/-- The all-zero position, used to instantiate witnesses. -/
def posZero : NoisePos := ⟨0, 0, 0⟩

/-- A batched context mapping every index to the origin, used to
instantiate witnesses. -/
def apZero : Applier := ⟨fun _ => posZero⟩

/-- C1: for every density-function graph built from constant, linear, and
binary (add/multiply/min/max) nodes, and for every positional context,
filling an output array of length n yields at each index i exactly the
value obtained by sampling at the position the context assigns to i. -/
theorem c1_fill_sample_equivalence :
    ∀ (df : DensityFunction), builtFromCLB df = true →
      ∀ (ap : Applier) (n i : Nat), i < n →
        (fillD df ap n)[i]? = some (sampleD df (ap.atIndex i)) :=
  fun df _ ap n i hi => fillD_getElem?_eq_sample df ap n i hi

/-- A graph exercising a folded linear node under a binary min node. -/
def c1Graph : DensityFunction :=
  create .Min (create .Mul (.Constant 2) (.Constant 3)) (.Constant 5)

theorem c1_witness :
    builtFromCLB c1Graph = true ∧ 0 < 4 ∧
      (fillD c1Graph apZero 4)[0]? = some (sampleD c1Graph (apZero.atIndex 0)) :=
  ⟨by decide, by decide,
    c1_fill_sample_equivalence c1Graph (by decide) apZero 4 0 (by decide)⟩

/-- C5: in a min-combinator fill, every index whose child1 value is
strictly below child2's static minimum keeps child1's value unchanged;
symmetrically, in a max-combinator fill, every index whose child1 value is
strictly above child2's static maximum keeps child1's value unchanged. -/
theorem c5_min_max_skip :
    (∀ (a1 a2 : DensityFunction) (mn mx : ℚ) (ap : Applier) (n i : Nat) (x : ℚ),
        (fillD a1 ap n)[i]? = some x → x < minD a2 →
        (fillD (.Binary .Min a1 a2 mn mx) ap n)[i]? = some x) ∧
    (∀ (a1 a2 : DensityFunction) (mn mx : ℚ) (ap : Applier) (n i : Nat) (x : ℚ),
        (fillD a1 ap n)[i]? = some x → maxD a2 < x →
        (fillD (.Binary .Max a1 a2 mn mx) ap n)[i]? = some x) := by
  constructor
  · intro a1 a2 mn mx ap n i x hx hlt
    simp [fillD, mapWithIndex_zero_getElem?, hx, not_le.mpr hlt]
  · intro a1 a2 mn mx ap n i x hx hlt
    simp [fillD, mapWithIndex_zero_getElem?, hx, not_le.mpr hlt]

theorem c5_witness :
    ((fillD (.Constant 1) apZero 2)[0]? = some 1 ∧ (1 : ℚ) < minD (.Constant 5) ∧
      (fillD (.Binary .Min (.Constant 1) (.Constant 5) 1 1) apZero 2)[0]? = some 1) ∧
    ((fillD (.Constant 9) apZero 2)[0]? = some 9 ∧ maxD (.Constant 5) < (9 : ℚ) ∧
      (fillD (.Binary .Max (.Constant 9) (.Constant 5) 9 9) apZero 2)[0]? = some 9) :=
  ⟨⟨by decide, by decide,
      c5_min_max_skip.1 (.Constant 1) (.Constant 5) 1 1 apZero 2 0 1
        (by decide) (by decide)⟩,
    ⟨by decide, by decide,
      c5_min_max_skip.2 (.Constant 9) (.Constant 5) 9 9 apZero 2 0 9
        (by decide) (by decide)⟩⟩

/-- C6: in a multiply-combinator fill, every index whose child1 value is
exactly zero ends up zero in the final output, whatever the second child
is. -/
theorem c6_multiply_skip :
    ∀ (a1 a2 : DensityFunction) (mn mx : ℚ) (ap : Applier) (n i : Nat),
      (fillD a1 ap n)[i]? = some 0 →
      (fillD (.Binary .Mul a1 a2 mn mx) ap n)[i]? = some 0 := by
  intro a1 a2 mn mx ap n i hx
  simp [fillD, mapWithIndex_zero_getElem?, hx]

theorem c6_witness :
    (fillD (.Constant 0) apZero 3)[1]? = some 0 ∧
      (fillD (.Binary .Mul (.Constant 0) (.Constant 4) 0 0) apZero 3)[1]? = some 0 :=
  ⟨by decide,
    c6_multiply_skip (.Constant 0) (.Constant 4) 0 0 apZero 3 1 (by decide)⟩

/-- C7: the non-fatal overlap diagnostic of the binary factory fires
exactly for min and max constructions satisfying child1.min >= child2.min
or child2.min >= child1.max, and never for add or multiply.  In the
embedding the diagnostic is a pure predicate that the node construction
never reads, so the returned node is identical whether or not it fired. -/
theorem c7_overlap_diagnostic :
    ∀ (action : BinaryType) (a1 a2 : DensityFunction),
      binaryWarns action a1 a2 = true ↔
        ((action = .Min ∨ action = .Max) ∧
          (minD a2 ≤ minD a1 ∨ maxD a1 ≤ minD a2)) := by
  intro action a1 a2
  cases action <;> simp [binaryWarns]

lemma loadValidated_eq (c : BasicConfiguration) :
    loadValidated c = if validateOk c = true then some c else none := by
  unfold loadValidated validateOk
  cases validate c <;> simp

/-- C9: basic-configuration validation stops the process exactly when the
view distance is below 2 or above 32, or when online mode is enabled while
encryption is disabled; a configuration passing these checks is returned
unchanged. -/
theorem c9_config_validation :
    ∀ (c : BasicConfiguration),
      (validateOk c = false ↔
        (c.view_distance < 2 ∨ 32 < c.view_distance ∨
          (c.online_mode = true ∧ c.encryption = false))) ∧
      (validateOk c = true → loadValidated c = some c) := by
  intro c
  refine ⟨?_, fun h => by rw [loadValidated_eq, if_pos h]⟩
  unfold validateOk validate
  by_cases h1 : 2 ≤ c.view_distance
  · by_cases h2 : c.view_distance ≤ 32
    · by_cases h3 : c.online_mode = true ∧ ¬ c.encryption = true
      · rw [if_neg (not_not_intro h1), if_neg (not_not_intro h2), if_pos h3]
        simp only [Bool.not_eq_true] at h3
        simp [h3.1, h3.2]
      · rw [if_neg (not_not_intro h1), if_neg (not_not_intro h2), if_neg h3]
        simp only [Bool.not_eq_true] at h3
        constructor
        · intro habs
          exact absurd habs (by simp)
        · intro habs
          rcases habs with h | h | h
          · omega
          · omega
          · exact absurd ⟨h.1, by simp [h.2]⟩ h3
    · rw [if_neg (not_not_intro h1), if_pos h2]
      simp only [not_le] at h2
      simp [h2]
  · rw [if_pos h1]
    simp only [not_le] at h1
    simp [h1]

/-- A configuration with the default field values of the source. -/
def c9Config : BasicConfiguration :=
  ⟨"", 100000, 10, 10, true, false, true, true,
    "A Blazing fast Pumpkin Server!", true, true, "icon.png"⟩

theorem c9_witness :
    validateOk c9Config = true ∧ loadValidated c9Config = some c9Config :=
  ⟨by rfl, (c9_config_validation c9Config).2 (by rfl)⟩

/-- The rewrite protocol claimed by the spec for every node kind of the
excerpt: rewrite the children through the visitor, reconstruct the parent
from the rewritten children, then give the visitor a final opportunity to
replace the freshly built parent. -/
def applySpecC8 : DensityFunction → Visitor → DensityFunction
  | .Linear action input _ _ arg, vis => vis.apply (linearOf action (applyD input vis) arg)
  | .Binary action a1 a2 _ _, vis =>
      vis.apply (create action (applyD a1 vis) (applyD a2 vis))
  | df, vis => applyD df vis

/-- A visitor replacing every node offered to it by the constant 7. -/
def c8Visitor : Visitor := ⟨fun _ => .Constant 7⟩

/-- A linear combinator adding 1 to the constant 0. -/
def c8LinearNode : DensityFunction := .Linear .Add (.Constant 0) 0 0 1

/-- C8 counterexample: rewriting a linear node does not give the visitor a
final opportunity on the rebuilt parent, so a visitor that replaces every
offered node by a constant does not replace the rebuilt linear node. -/
theorem c8_counterexample :
    applyD c8LinearNode c8Visitor ≠ applySpecC8 c8LinearNode c8Visitor := by
  simp [c8LinearNode, c8Visitor, applyD, applySpecC8, linearOf, minD, maxD]

/-- C8 amended: a binary node is rewritten by rewriting both children,
reconstructing through the factory (re-running algebraic folding), and
then giving the visitor the final opportunity on the freshly built parent;
a linear node is rewritten by rewriting its child and rebuilding a linear
node with recomputed bounds, returned directly without a final visitor
step. -/
theorem c8_rewrite_amended :
    (∀ (action : BinaryType) (a1 a2 : DensityFunction) (mn mx : ℚ) (vis : Visitor),
        applyD (.Binary action a1 a2 mn mx) vis =
          vis.apply (create action (applyD a1 vis) (applyD a2 vis))) ∧
    (∀ (action : LinearType) (input : DensityFunction) (mn mx arg : ℚ) (vis : Visitor),
        applyD (.Linear action input mn mx arg) vis =
          linearOf action (applyD input vis) arg) :=
  ⟨fun _ _ _ _ _ _ => rfl, fun _ _ _ _ _ _ => rfl⟩

section FoldingEquivalence

lemma sampleD_linear_congr (action : LinearType) (input : DensityFunction)
    (arg mn1 mx1 mn2 mx2 : ℚ) :
    sampleD (.Linear action input mn1 mx1 arg)
      = sampleD (.Linear action input mn2 mx2 arg) := rfl

lemma fillD_linear_congr (action : LinearType) (input : DensityFunction)
    (arg mn1 mx1 mn2 mx2 : ℚ) :
    fillD (.Linear action input mn1 mx1 arg)
      = fillD (.Linear action input mn2 mx2 arg) := rfl

lemma create_add_const_left (c : ℚ) (X : DensityFunction) :
    create .Add (.Constant c) X
      = .Linear .Add X (c + minD X) (c + maxD X) c := rfl

lemma create_mul_const_left (c : ℚ) (X : DensityFunction) :
    create .Mul (.Constant c) X
      = .Linear .Mul X
          (binaryMinBound .Mul c (minD X) c (maxD X))
          (binaryMaxBound .Mul c (minD X) c (maxD X)) c := rfl

lemma create_add_const_right (c : ℚ) (X : DensityFunction)
    (hX : asConstant X = none) :
    create .Add X (.Constant c)
      = .Linear .Add X (minD X + c) (maxD X + c) c := by
  cases X with
  | Constant v => simp [asConstant] at hX
  | Leaf f mn mx => rfl
  | Linear a i mn mx arg => rfl
  | Binary a b1 b2 mn mx => rfl

lemma create_mul_const_right (c : ℚ) (X : DensityFunction)
    (hX : asConstant X = none) :
    create .Mul X (.Constant c)
      = .Linear .Mul X
          (binaryMinBound .Mul (minD X) c (maxD X) c)
          (binaryMaxBound .Mul (minD X) c (maxD X) c) c := by
  cases X with
  | Constant v => simp [asConstant] at hX
  | Leaf f mn mx => rfl
  | Linear a i mn mx arg => rfl
  | Binary a b1 b2 mn mx => rfl

lemma linearOf_add_eq (X : DensityFunction) (c : ℚ) :
    linearOf .Add X c = .Linear .Add X (minD X + c) (maxD X + c) c := rfl

lemma linearOf_mul_eq (X : DensityFunction) (c : ℚ) :
    linearOf .Mul X c
      = .Linear .Mul X
          (if 0 ≤ c then minD X * c else maxD X * c)
          (if 0 ≤ c then maxD X * c else minD X * c) c := by
  by_cases h : 0 ≤ c <;> simp [linearOf, h]

lemma create_binary_of_nonconst (action : BinaryType) (a1 a2 : DensityFunction)
    (h1 : asConstant a1 = none) (h2 : asConstant a2 = none) :
    create action a1 a2
      = .Binary action a1 a2
          (binaryMinBound action (minD a1) (minD a2) (maxD a1) (maxD a2))
          (binaryMaxBound action (minD a1) (minD a2) (maxD a1) (maxD a2)) := by
  cases action <;> cases a1 <;> cases a2 <;> first | rfl | simp_all [asConstant]

lemma c2_nonconst (X : DensityFunction) (c : ℚ) (hwf : minD X ≤ maxD X)
    (hX : asConstant X = none) :
    obsEqual (create .Add (.Constant c) X) (linearOf .Add X c) ∧
    obsEqual (create .Add X (.Constant c)) (linearOf .Add X c) ∧
    obsEqual (create .Mul (.Constant c) X) (linearOf .Mul X c) ∧
    obsEqual (create .Mul X (.Constant c)) (linearOf .Mul X c) := by
  refine ⟨?_, ?_, ?_, ?_⟩
  · rw [create_add_const_left, linearOf_add_eq]
    exact ⟨sampleD_linear_congr _ _ _ _ _ _ _, fillD_linear_congr _ _ _ _ _ _ _,
      add_comm c (minD X), add_comm c (maxD X)⟩
  · rw [create_add_const_right c X hX, linearOf_add_eq]
    exact ⟨rfl, rfl, rfl, rfl⟩
  · rw [create_mul_const_left, linearOf_mul_eq]
    exact ⟨sampleD_linear_congr _ _ _ _ _ _ _, fillD_linear_congr _ _ _ _ _ _ _,
      mulBound_const_left_min c (minD X) (maxD X) hwf,
      mulBound_const_left_max c (minD X) (maxD X) hwf⟩
  · rw [create_mul_const_right c X hX, linearOf_mul_eq]
    exact ⟨sampleD_linear_congr _ _ _ _ _ _ _, fillD_linear_congr _ _ _ _ _ _ _,
      mulBound_const_right_min c (minD X) (maxD X) hwf,
      mulBound_const_right_max c (minD X) (maxD X) hwf⟩

lemma c2_const (x c : ℚ) :
    obsEqual (create .Add (.Constant c) (.Constant x)) (linearOf .Add (.Constant x) c) ∧
    obsEqual (create .Add (.Constant x) (.Constant c)) (linearOf .Add (.Constant x) c) ∧
    obsEqual (create .Mul (.Constant c) (.Constant x)) (linearOf .Mul (.Constant x) c) ∧
    obsEqual (create .Mul (.Constant x) (.Constant c)) (linearOf .Mul (.Constant x) c) := by
  refine ⟨?_, ?_, ?_, ?_⟩
  · rw [create_add_const_left, linearOf_add_eq]
    exact ⟨sampleD_linear_congr _ _ _ _ _ _ _, fillD_linear_congr _ _ _ _ _ _ _,
      add_comm c (minD (.Constant x)), add_comm c (maxD (.Constant x))⟩
  · rw [create_add_const_left, linearOf_add_eq]
    refine ⟨?_, ?_, rfl, rfl⟩
    · funext pos
      simp [sampleD, applyDensity]
      ring
    · funext ap n
      simp only [fillD, List.map_replicate, applyDensity]
      rw [add_comm]
  · rw [create_mul_const_left, linearOf_mul_eq]
    exact ⟨sampleD_linear_congr _ _ _ _ _ _ _, fillD_linear_congr _ _ _ _ _ _ _,
      mulBound_const_left_min c x x le_rfl, mulBound_const_left_max c x x le_rfl⟩
  · rw [create_mul_const_left, linearOf_mul_eq]
    refine ⟨?_, ?_, ?_, ?_⟩
    · funext pos
      simp [sampleD, applyDensity]
      ring
    · funext ap n
      simp only [fillD, List.map_replicate, applyDensity]
      rw [mul_comm]
    · simpa [minD, maxD, mul_comm] using mulBound_const_left_min x c c le_rfl
    · simpa [minD, maxD, mul_comm] using mulBound_const_left_max x c c le_rfl

/-- C2: the binary factory applied with add or multiply to a node X and a
constant c, in either argument order, yields a node whose sample, fill,
min and max all agree with a linear combinator with arg = c wrapping X;
and whenever neither child is a constant, or the operator is min or max,
the factory returns a binary node. -/
theorem c2_constant_folding :
    (∀ (X : DensityFunction) (c : ℚ), minD X ≤ maxD X →
        obsEqual (create .Add (.Constant c) X) (linearOf .Add X c) ∧
        obsEqual (create .Add X (.Constant c)) (linearOf .Add X c) ∧
        obsEqual (create .Mul (.Constant c) X) (linearOf .Mul X c) ∧
        obsEqual (create .Mul X (.Constant c)) (linearOf .Mul X c)) ∧
    (∀ (action : BinaryType) (a1 a2 : DensityFunction),
        action = .Min ∨ action = .Max ∨
          (asConstant a1 = none ∧ asConstant a2 = none) →
        isBinaryNode (create action a1 a2) = true) := by
  constructor
  · intro X c hwf
    cases hX : asConstant X with
    | some x =>
        obtain rfl := asConstant_eq_some hX
        exact c2_const x c
    | none => exact c2_nonconst X c hwf hX
  · intro action a1 a2 hcase
    rcases hcase with rfl | rfl | ⟨h1, h2⟩
    · rw [create_min_eq]; rfl
    · rw [create_max_eq]; rfl
    · rw [create_binary_of_nonconst action a1 a2 h1 h2]; rfl

/-- A small non-constant node with bounds 0 and 1. -/
def c2Leaf : DensityFunction := .Leaf (fun _ => 0) 0 1

theorem c2_witness :
    minD c2Leaf ≤ maxD c2Leaf ∧
      obsEqual (create .Mul c2Leaf (.Constant (-2))) (linearOf .Mul c2Leaf (-2)) ∧
      isBinaryNode (create .Min (.Constant 1) (.Constant 2)) = true :=
  ⟨by decide,
    ((c2_constant_folding.1 c2Leaf (-2) (by decide)).2.2.2),
    c2_constant_folding.2 .Min (.Constant 1) (.Constant 2) (Or.inl rfl)⟩

end FoldingEquivalence

section MultiplyBounds

lemma mulBound_case_nonneg (d e f g : ℚ) (hdf : d ≤ f) (heg : e ≤ g)
    (hd : 0 ≤ d) (he : 0 ≤ e) :
    binaryMinBound .Mul d e f g = d * e ∧ binaryMaxBound .Mul d e f g = f * g := by
  simp only [binaryMinBound, binaryMaxBound]
  have hf : 0 ≤ f := le_trans hd hdf
  have hg : 0 ≤ g := le_trans he heg
  by_cases hb : 0 < d ∧ 0 < e
  · rw [if_pos hb, if_pos hb]
    exact ⟨rfl, rfl⟩
  · have hnb2 : ¬(f < 0 ∧ g < 0) := by
      rintro ⟨hcon, h2⟩
      linarith
    rw [if_neg hb, if_neg hnb2, if_neg hb, if_neg hnb2]
    constructor
    · rcases not_and_or.mp hb with h | h
      · have hd0 : d = 0 := le_antisymm (not_lt.mp h) hd
        subst hd0
        simp only [zero_mul]
        exact min_eq_left (mul_nonneg hf he)
      · have he0 : e = 0 := le_antisymm (not_lt.mp h) he
        subst he0
        simp only [mul_zero]
        exact min_eq_right (mul_nonneg hd hg)
    · refine max_eq_right ?_
      nlinarith [mul_nonneg (sub_nonneg.mpr hdf) he, mul_nonneg hf (sub_nonneg.mpr heg)]

lemma mulBound_case_nonpos (d e f g : ℚ) (hdf : d ≤ f) (heg : e ≤ g)
    (hf : f ≤ 0) (hg : g ≤ 0) :
    binaryMinBound .Mul d e f g = f * g ∧ binaryMaxBound .Mul d e f g = d * e := by
  simp only [binaryMinBound, binaryMaxBound]
  have hd : d ≤ 0 := le_trans hdf hf
  have he : e ≤ 0 := le_trans heg hg
  have hnb1 : ¬(0 < d ∧ 0 < e) := by
    rintro ⟨hcon, h2⟩
    linarith
  by_cases hb2 : f < 0 ∧ g < 0
  · rw [if_neg hnb1, if_pos hb2, if_neg hnb1, if_pos hb2]
    exact ⟨rfl, rfl⟩
  · rw [if_neg hnb1, if_neg hb2, if_neg hnb1, if_neg hb2]
    constructor
    · rcases not_and_or.mp hb2 with h | h
      · have hf0 : f = 0 := le_antisymm hf (not_lt.mp h)
        subst hf0
        simp only [zero_mul]
        refine min_eq_right ?_
        nlinarith
      · have hg0 : g = 0 := le_antisymm hg (not_lt.mp h)
        subst hg0
        simp only [mul_zero]
        refine min_eq_left ?_
        nlinarith
    · refine max_eq_left ?_
      nlinarith [mul_le_mul (neg_le_neg hdf) (neg_le_neg heg)
        (by linarith : (0 : ℚ) ≤ -g) (by linarith : (0 : ℚ) ≤ -d)]

lemma mulBound_case_mixed (d e f g : ℚ)
    (hb1 : ¬(0 ≤ d ∧ 0 ≤ e)) (hb2 : ¬(f ≤ 0 ∧ g ≤ 0)) :
    binaryMinBound .Mul d e f g = min (d * g) (f * e) ∧
    binaryMaxBound .Mul d e f g = max (d * e) (f * g) := by
  have hnb1 : ¬(0 < d ∧ 0 < e) := by
    rintro ⟨h1, h2⟩
    exact hb1 ⟨h1.le, h2.le⟩
  have hnb2 : ¬(f < 0 ∧ g < 0) := by
    rintro ⟨h1, h2⟩
    exact hb2 ⟨h1.le, h2.le⟩
  simp only [binaryMinBound, binaryMaxBound]
  rw [if_neg hnb1, if_neg hnb2, if_neg hnb1, if_neg hnb2]
  exact ⟨rfl, rfl⟩

/-- C3: the multiply factory computes the result bounds by the claimed
case analysis over the children's intervals: entirely non-negative gives
[d*e, f*g], entirely non-positive gives [f*g, d*e], and the remaining
mixed-sign case gives [min(d*g, f*e), max(d*e, f*g)]. -/
theorem c3_multiply_bounds :
    ∀ (a1 a2 : DensityFunction),
      minD a1 ≤ maxD a1 → minD a2 ≤ maxD a2 →
      ((0 ≤ minD a1 ∧ 0 ≤ minD a2 →
          minD (create .Mul a1 a2) = minD a1 * minD a2 ∧
          maxD (create .Mul a1 a2) = maxD a1 * maxD a2) ∧
        (¬(0 ≤ minD a1 ∧ 0 ≤ minD a2) → maxD a1 ≤ 0 ∧ maxD a2 ≤ 0 →
          minD (create .Mul a1 a2) = maxD a1 * maxD a2 ∧
          maxD (create .Mul a1 a2) = minD a1 * minD a2) ∧
        (¬(0 ≤ minD a1 ∧ 0 ≤ minD a2) → ¬(maxD a1 ≤ 0 ∧ maxD a2 ≤ 0) →
          minD (create .Mul a1 a2) = min (minD a1 * maxD a2) (maxD a1 * minD a2) ∧
          maxD (create .Mul a1 a2) = max (minD a1 * minD a2) (maxD a1 * maxD a2))) := by
  intro a1 a2 h1 h2
  rw [minD_create, maxD_create]
  exact ⟨fun hn => mulBound_case_nonneg _ _ _ _ h1 h2 hn.1 hn.2,
    fun _ hp => mulBound_case_nonpos _ _ _ _ h1 h2 hp.1 hp.2,
    fun hn hp => mulBound_case_mixed _ _ _ _ hn hp⟩

theorem c3_witness :
    minD (.Constant 2) ≤ maxD (.Constant 2) ∧ minD (.Constant 3) ≤ maxD (.Constant 3) ∧
      (0 : ℚ) ≤ minD (.Constant 2) ∧ (0 : ℚ) ≤ minD (.Constant 3) ∧
      minD (create .Mul (.Constant 2) (.Constant 3)) = minD (.Constant 2) * minD (.Constant 3) ∧
      maxD (create .Mul (.Constant 2) (.Constant 3)) = maxD (.Constant 2) * maxD (.Constant 3) :=
  ⟨by decide, by decide, by decide, by decide,
    ((c3_multiply_bounds (.Constant 2) (.Constant 3) (by decide) (by decide)).1
      ⟨by decide, by decide⟩).1,
    ((c3_multiply_bounds (.Constant 2) (.Constant 3) (by decide) (by decide)).1
      ⟨by decide, by decide⟩).2⟩

end MultiplyBounds

section BoundsInvariant

/-- C4: every node built by the binary factory, and every linear node
built or rebuilt by the linear sign rule, satisfies min() <= max(),
provided each child does. -/
theorem c4_bounds_invariant :
    (∀ (action : BinaryType) (a1 a2 : DensityFunction),
        minD a1 ≤ maxD a1 → minD a2 ≤ maxD a2 →
        minD (create action a1 a2) ≤ maxD (create action a1 a2)) ∧
    (∀ (action : LinearType) (input : DensityFunction) (arg : ℚ),
        minD input ≤ maxD input →
        minD (linearOf action input arg) ≤ maxD (linearOf action input arg)) := by
  constructor
  · intro action a1 a2 h1 h2
    rw [minD_create, maxD_create]
    exact binaryBound_le action _ _ _ _ h1 h2
  · intro action input arg h
    cases action with
    | Add =>
        show minD input + arg ≤ maxD input + arg
        exact add_le_add_right h arg
    | Mul =>
        rw [linearOf_mul_eq]
        by_cases ha : 0 ≤ arg
        · show (if 0 ≤ arg then minD input * arg else maxD input * arg) ≤ _
          rw [if_pos ha, if_pos ha]
          exact mul_le_mul_of_nonneg_right h ha
        · show (if 0 ≤ arg then minD input * arg else maxD input * arg) ≤ _
          rw [if_neg ha, if_neg ha]
          exact mul_le_mul_of_nonpos_right h (le_of_not_le ha)

theorem c4_witness :
    minD (.Constant 1) ≤ maxD (.Constant 1) ∧ minD (.Constant 2) ≤ maxD (.Constant 2) ∧
      minD (create .Min (.Constant 1) (.Constant 2)) ≤
        maxD (create .Min (.Constant 1) (.Constant 2)) ∧
      minD (linearOf .Mul (.Constant 1) (-2)) ≤ maxD (linearOf .Mul (.Constant 1) (-2)) :=
  ⟨by decide, by decide,
    c4_bounds_invariant.1 .Min (.Constant 1) (.Constant 2) (by decide) (by decide),
    c4_bounds_invariant.2 .Mul (.Constant 1) (-2) (by decide)⟩

end BoundsInvariant

section BoundsSoundness

/-- The multiply upper bound is sound in the two strict-sign branches of
the factory. -/
lemma mulBound_upper_strict (d e f g s1 s2 : ℚ)
    (h1 : d ≤ s1) (h2 : s1 ≤ f) (h3 : e ≤ s2) (h4 : s2 ≤ g)
    (hb : (0 < d ∧ 0 < e) ∨ (f < 0 ∧ g < 0)) :
    s1 * s2 ≤ binaryMaxBound .Mul d e f g := by
  simp only [binaryMaxBound]
  rcases hb with ⟨hd, he⟩ | ⟨hf, hg⟩
  · rw [if_pos ⟨hd, he⟩]
    nlinarith
  · have hnb1 : ¬(0 < d ∧ 0 < e) := by
      rintro ⟨hcon, h0⟩
      linarith
    rw [if_neg hnb1, if_pos ⟨hf, hg⟩]
    calc s1 * s2 ≤ d * s2 := mul_le_mul_of_nonpos_right h1 (by linarith)
      _ ≤ d * e := mul_le_mul_of_nonpos_left h3 (by linarith)

/-- A leaf whose samples are constantly -1 inside honestly declared bounds
[-3, -1]. -/
def c10Leaf1 : DensityFunction := .Leaf (fun _ => -1) (-3) (-1)

/-- A leaf whose samples are constantly 1 inside honestly declared bounds
[1, 2]. -/
def c10Leaf2 : DensityFunction := .Leaf (fun _ => 1) 1 2

/-- C10 counterexample: two honest leaves (samples within declared bounds)
whose multiply combination samples strictly above the node's computed
upper bound: the factory's mixed-sign upper bound max(d*e, f*g) ignores
the corner f*e, which for a negative times a positive interval is the true
supremum. -/
theorem c10_counterexample :
    inBounds c10Leaf1 ∧ inBounds c10Leaf2 ∧
      maxD (create .Mul c10Leaf1 c10Leaf2) <
        sampleD (create .Mul c10Leaf1 c10Leaf2) posZero := by
  refine ⟨fun pos => ⟨?_, ?_⟩, fun pos => ⟨?_, ?_⟩, ?_⟩
  · show (-3 : ℚ) ≤ -1
    norm_num
  · show (-1 : ℚ) ≤ -1
    norm_num
  · show (1 : ℚ) ≤ 1
    norm_num
  · show (1 : ℚ) ≤ 2
    norm_num
  · have hmax : maxD (create .Mul c10Leaf1 c10Leaf2) = -2 := by
      rw [maxD_create]
      show binaryMaxBound .Mul (-3) 1 (-1) 2 = -2
      simp only [binaryMaxBound]
      rw [if_neg (by norm_num), if_neg (by norm_num)]
      rw [max_eq_right (by norm_num : ((-3 : ℚ)) * 1 ≤ (-1) * 2)]
      norm_num
    have hsample : sampleD (create .Mul c10Leaf1 c10Leaf2) posZero = -1 := by
      rw [sampleD_create_mul]
      show ((-1 : ℚ)) * 1 = -1
      norm_num
    rw [hmax, hsample]
    norm_num

/-- C10 amended: combinator bounds are sound for add, min, max and linear
nodes, and for multiply the lower bound is always sound, while the upper
bound is sound whenever the factory takes one of its strict-sign branches
(both children entirely positive, or both entirely negative); the
remaining mixed-sign multiply upper bound is the unsound case exhibited by
the counterexample. -/
theorem c10_bounds_soundness_amended :
    (∀ (a1 a2 : DensityFunction), inBounds a1 → inBounds a2 →
        inBounds (create .Add a1 a2) ∧ inBounds (create .Min a1 a2) ∧
          inBounds (create .Max a1 a2)) ∧
    (∀ (a1 a2 : DensityFunction), inBounds a1 → inBounds a2 →
        ∀ (pos : NoisePos),
          minD (create .Mul a1 a2) ≤ sampleD (create .Mul a1 a2) pos) ∧
    (∀ (a1 a2 : DensityFunction), inBounds a1 → inBounds a2 →
        ((0 < minD a1 ∧ 0 < minD a2) ∨ (maxD a1 < 0 ∧ maxD a2 < 0)) →
        inBounds (create .Mul a1 a2)) ∧
    (∀ (action : LinearType) (input : DensityFunction) (arg : ℚ),
        inBounds input → inBounds (linearOf action input arg)) := by
  refine ⟨?_, ?_, ?_, ?_⟩
  · intro a1 a2 hb1 hb2
    refine ⟨?_, ?_, ?_⟩
    · intro pos
      obtain ⟨l1, r1⟩ := hb1 pos
      obtain ⟨l2, r2⟩ := hb2 pos
      rw [minD_create, maxD_create, sampleD_create_add]
      exact ⟨add_le_add l1 l2, add_le_add r1 r2⟩
    · rw [create_min_eq]
      intro pos
      obtain ⟨l1, r1⟩ := hb1 pos
      obtain ⟨l2, r2⟩ := hb2 pos
      show min (minD a1) (minD a2) ≤
          (if sampleD a1 pos < minD a2 then sampleD a1 pos
            else min (sampleD a1 pos) (sampleD a2 pos)) ∧
        (if sampleD a1 pos < minD a2 then sampleD a1 pos
          else min (sampleD a1 pos) (sampleD a2 pos)) ≤ min (maxD a1) (maxD a2)
      by_cases hlt : sampleD a1 pos < minD a2
      · rw [if_pos hlt]
        exact ⟨le_trans (min_le_left _ _) l1,
          le_min r1 (le_trans hlt.le (le_trans l2 r2))⟩
      · rw [if_neg hlt]
        exact ⟨min_le_min l1 l2, min_le_min r1 r2⟩
    · rw [create_max_eq]
      intro pos
      obtain ⟨l1, r1⟩ := hb1 pos
      obtain ⟨l2, r2⟩ := hb2 pos
      show max (minD a1) (minD a2) ≤
          (if maxD a2 < sampleD a1 pos then sampleD a1 pos
            else max (sampleD a1 pos) (sampleD a2 pos)) ∧
        (if maxD a2 < sampleD a1 pos then sampleD a1 pos
          else max (sampleD a1 pos) (sampleD a2 pos)) ≤ max (maxD a1) (maxD a2)
      by_cases hgt : maxD a2 < sampleD a1 pos
      · rw [if_pos hgt]
        exact ⟨max_le l1 (le_of_lt (lt_of_le_of_lt (le_trans l2 r2) hgt)),
          le_trans r1 (le_max_left _ _)⟩
      · rw [if_neg hgt]
        exact ⟨max_le_max l1 l2, max_le_max r1 r2⟩
  · intro a1 a2 hb1 hb2 pos
    obtain ⟨l1, r1⟩ := hb1 pos
    obtain ⟨l2, r2⟩ := hb2 pos
    rw [minD_create, sampleD_create_mul]
    exact mulBound_lower _ _ _ _ _ _ l1 r1 l2 r2
  · intro a1 a2 hb1 hb2 hstrict pos
    obtain ⟨l1, r1⟩ := hb1 pos
    obtain ⟨l2, r2⟩ := hb2 pos
    rw [minD_create, maxD_create, sampleD_create_mul]
    exact ⟨mulBound_lower _ _ _ _ _ _ l1 r1 l2 r2,
      mulBound_upper_strict _ _ _ _ _ _ l1 r1 l2 r2 hstrict⟩
  · intro action input arg hb pos
    obtain ⟨l, r⟩ := hb pos
    cases action with
    | Add =>
        show minD input + arg ≤ sampleD input pos + arg ∧
          sampleD input pos + arg ≤ maxD input + arg
        exact ⟨add_le_add_right l arg, add_le_add_right r arg⟩
    | Mul =>
        rw [linearOf_mul_eq]
        show (if 0 ≤ arg then minD input * arg else maxD input * arg) ≤
            sampleD input pos * arg ∧
          sampleD input pos * arg ≤
            (if 0 ≤ arg then maxD input * arg else minD input * arg)
        by_cases ha : 0 ≤ arg
        · rw [if_pos ha, if_pos ha]
          exact ⟨mul_le_mul_of_nonneg_right l ha, mul_le_mul_of_nonneg_right r ha⟩
        · rw [if_neg ha, if_neg ha]
          exact ⟨mul_le_mul_of_nonpos_right r (le_of_not_le ha),
            mul_le_mul_of_nonpos_right l (le_of_not_le ha)⟩

theorem c10_witness :
    inBounds (.Constant (-1)) ∧ inBounds (.Constant 2) ∧
      inBounds (create .Add (.Constant (-1)) (.Constant 2)) ∧
      inBounds (linearOf .Mul (.Constant (-1)) (-2)) := by
  have hb1 : inBounds (.Constant (-1)) := fun pos => ⟨le_refl _, le_refl _⟩
  have hb2 : inBounds (.Constant 2) := fun pos => ⟨le_refl _, le_refl _⟩
  exact ⟨hb1, hb2, (c10_bounds_soundness_amended.1 _ _ hb1 hb2).1,
    c10_bounds_soundness_amended.2.2.2 .Mul (.Constant (-1)) (-2) hb1⟩

end BoundsSoundness

end Pumpkin
